import Mathlib

/-!
Verification of the grounding core of the Policy Explainer RAG system.

This file gives a shallow embedding, in Lean 4, of the citation-critical
parts of the system: the page chunker (src/backend/ingestion.py), the
multi-query section retriever (src/backend/retrieval.py), the citation
validators (src/backend/summarization.py, src/backend/qa.py), the LLM
JSON-output parsing (src/backend/qa.py), and the confidence / faithfulness
scoring layer, of which the source tree contains two divergent iterations
(src/evaluation.py and src/backend/evaluation.py); both iterations are
embedded, in the namespaces Eval and BEval respectively.

Modelling conventions:
- Python str is modelled by String (a list of unicode code points, matching
  Python's code-point view of str); character classes (whitespace, digits,
  lowercase) are modelled by their ASCII definitions, which is exact for the
  ASCII inputs the system manipulates.
- Python dicts coming from JSON are modelled by structures with Option
  fields (none = key missing or value of the wrong type).
- Python float is used by the code only for (a) ordering distances and
  (b) the 0.15 word-overlap threshold and score rounding.  Distances are
  modelled by Rat, exact for ordering of non-NaN floats; the comparison
  len_i / len_b >= 0.15 is modelled by the exact rational inequality
  3 * len_b <= 20 * len_i, which agrees with the float comparison for all
  realistic token counts; scores are modelled by Rat.
-/

namespace PolicyExplainer

/-! ## Python string primitives -/

/-- Python whitespace characters for str.strip and the regex class \s
(ASCII fragment). -/
def isPySpace (c : Char) : Bool :=
  c = ' ' ∨ c = '\t' ∨ c = '\n' ∨ c = '\r' ∨ c = '\x0b' ∨ c = '\x0c'

/-- Python str.strip(): removes leading and trailing whitespace. -/
def pyStrip (s : String) : String :=
  String.mk (((s.data.dropWhile isPySpace).reverse.dropWhile isPySpace).reverse)

/-- Python str.lower() (ASCII fragment). -/
def pyLower (s : String) : String :=
  String.mk (s.data.map Char.toLower)

/-- Python substring containment: strContains hay needle models
needle in hay. -/
def strContainsGo (needle : List Char) : List Char → Bool
  | [] => needle.isEmpty
  | c :: rest => needle.isPrefixOf (c :: rest) || strContainsGo needle rest

/-- Python str membership test needle in hay. -/
def strContains (hay needle : String) : Bool :=
  strContainsGo needle.data hay.data

/-- Python " ".join(parts). -/
def joinSp : List String → String
  | [] => ""
  | [s] => s
  | s :: rest => s ++ " " ++ joinSp rest

/-! ## Chunker (src/backend/ingestion.py) -/

namespace Ingestion

/-- Upper token bound for a chunk (MAX_TOKENS = 800 in ingestion.py). -/
def MAX_TOKENS : Nat := 800

/-- Overlap token budget (OVERLAP_TOKENS = 80 in ingestion.py). -/
def OVERLAP_TOKENS : Nat := 80

/-- _approx_tokens: max(0, len(text.strip()) // 4); the Nat division is
already floored and nonnegative. -/
def approx_tokens (s : String) : Nat :=
  (pyStrip s).length / 4

/-- Sentence-ending punctuation class [.!?] of the split regex. -/
def isSentEnd (c : Char) : Bool :=
  c = '.' ∨ c = '!' ∨ c = '?'

/-- The lookbehind (?<=[.!?]) applied to the reversed accumulated part:
true when the previously consumed character is sentence-ending. -/
def lookbehindEnd : List Char → Bool
  | p :: _ => isSentEnd p
  | [] => false

/-- The regex split re.split(r"(?<=[.!?])\s+", text): a maximal whitespace
run immediately preceded by one of .!? is a delimiter.  cur is the current
part accumulated in reverse; the lookbehind inspects its head. -/
def sentSplitGo (cur : List Char) : List Char → List String
  | [] => [String.mk cur.reverse]
  | c :: rest =>
    if lookbehindEnd cur && isPySpace c then
      String.mk cur.reverse :: sentSplitGo [] (rest.dropWhile isPySpace)
    else
      sentSplitGo (c :: cur) rest
termination_by cs => cs.length
decreasing_by
  · exact Nat.lt_succ_of_le ((List.dropWhile_sublist _).length_le)
  · simp

/-- _split_into_sentences: regex split, then strip each part and keep the
non-empty ones. -/
def split_into_sentences (text : String) : List String :=
  if pyStrip text = "" then []
  else ((sentSplitGo [] text.data).map pyStrip).filter (fun p => p ≠ "")

/-- A chunk record (backend.schemas.Chunk): a citation-addressable,
single-page unit of text. -/
structure Chunk where
  chunk_id : String
  page_number : Int
  doc_id : String
  chunk_text : String
deriving DecidableEq, Repr

/-- The chunk id format "c_{page_number}_{index}". -/
def chunkId (page_number : Int) (index : Nat) : String :=
  "c_" ++ toString page_number ++ "_" ++ toString index

/-- The sliding-window overlap loop of _chunk_page_text: walk the closed
window's sentences backwards (the argument is reversed(current)),
accumulating sentences at the front until the overlap token budget is
reached.  Returns the overlap sentences (in document order) and their token
count. -/
def overlapGo : List String → List String → Nat → List String × Nat
  | [], acc, tok => (acc, tok)
  | s :: rest, acc, tok =>
    let tok' := tok + approx_tokens s
    if OVERLAP_TOKENS ≤ tok' then (s :: acc, tok')
    else overlapGo rest (s :: acc) tok'

/-- The overlap seed for the next window, from the just-closed window. -/
def overlapOf (current : List String) : List String × Nat :=
  overlapGo current.reverse [] 0

/-- The main sentence-packing loop of _chunk_page_text.  current is the
running window, ct its token count, idx the next chunk index. -/
def chunkLoop (pn : Int) (doc : String) :
    List String → List Chunk → List String → Nat → Nat → List Chunk
  | [], chunks, current, _, idx =>
    if current = [] then chunks
    else chunks ++ [⟨chunkId pn idx, pn, doc, joinSp current⟩]
  | sent :: rest, chunks, current, ct, idx =>
    let st := approx_tokens sent
    if current ≠ [] ∧ MAX_TOKENS < ct + st then
      let c : Chunk := ⟨chunkId pn idx, pn, doc, joinSp current⟩
      let ov := overlapOf current
      chunkLoop pn doc rest (chunks ++ [c]) (ov.1 ++ [sent]) (ov.2 + st) (idx + 1)
    else
      chunkLoop pn doc rest chunks (current ++ [sent]) (ct + st) idx

/-- _chunk_page_text: breaks one page's text into chunks; empty or
sentence-free pages yield a single placeholder chunk. -/
def chunk_page_text (pn : Int) (doc : String) (text : String) : List Chunk :=
  if pyStrip text = "" then [⟨chunkId pn 0, pn, doc, ""⟩]
  else
    let sentences := split_into_sentences text
    if sentences = [] then [⟨chunkId pn 0, pn, doc, pyStrip text⟩]
    else chunkLoop pn doc sentences [] [] 0 0

/-- An extracted page (backend.schemas.ExtractedPage). -/
structure ExtractedPage where
  page_number : Int
  text : String
deriving DecidableEq, Repr

/-- chunk_pages: concatenates the per-page chunk lists. -/
def chunk_pages (pages : List ExtractedPage) (doc : String) : List Chunk :=
  pages.flatMap (fun p => chunk_page_text p.page_number doc p.text)

/-- The overlap relation between consecutive chunks: some non-empty string
is simultaneously a suffix of the first chunk's text and a prefix of the
second chunk's text. -/
def overlapP (a b : Chunk) : Prop :=
  ∃ s : String, s ≠ "" ∧ s.data <:+ a.chunk_text.data ∧ s.data <+: b.chunk_text.data

theorem overlapGo_shape (rev : List String) :
    ∀ (acc : List String) (tok : Nat),
      ∃ k, (overlapGo rev acc tok).1 = (rev.take k).reverse ++ acc ∧ (rev ≠ [] → 1 ≤ k) := by
  induction rev with
  | nil =>
    intro acc tok
    exact ⟨0, by simp [overlapGo], fun h => absurd rfl h⟩
  | cons s rest ih =>
    intro acc tok
    rw [overlapGo]
    by_cases hc : OVERLAP_TOKENS ≤ tok + approx_tokens s
    · refine ⟨1, ?_, fun _ => le_refl 1⟩
      simp [hc]
    · obtain ⟨k', hk', _⟩ := ih (s :: acc) (tok + approx_tokens s)
      refine ⟨k' + 1, ?_, fun _ => Nat.le_add_left 1 k'⟩
      simp only [hc, if_false]
      rw [hk', List.take_succ_cons, List.reverse_cons, List.append_assoc]
      simp

theorem overlapOf_suffix (current : List String) (h : current ≠ []) :
    (overlapOf current).1 ≠ [] ∧ (overlapOf current).1 <:+ current := by
  obtain ⟨k, hk, hone⟩ := overlapGo_shape current.reverse [] 0
  have hrev : current.reverse ≠ [] := by simpa using h
  have h1 : 1 ≤ k := hone hrev
  rw [overlapOf]
  constructor
  · rw [hk, List.append_nil]
    simp only [ne_eq, List.reverse_eq_nil_iff, List.take_eq_nil_iff]
    push_neg
    refine ⟨by omega, ?_⟩
    simpa using hrev
  · rw [hk, List.append_nil]
    exact List.reverse_prefix.mp (by rw [List.reverse_reverse]; exact List.take_prefix k current.reverse)

theorem joinSp_append (a : List String) :
    ∀ b : List String, a ≠ [] → b ≠ [] → joinSp (a ++ b) = joinSp a ++ " " ++ joinSp b := by
  induction a with
  | nil => intro b ha _; exact absurd rfl ha
  | cons x a' ih =>
    intro b _ hb
    cases a' with
    | nil =>
      cases b with
      | nil => exact absurd rfl hb
      | cons y ys => simp [joinSp]
    | cons z zs =>
      have h1 : joinSp ((x :: z :: zs) ++ b) = x ++ " " ++ joinSp ((z :: zs) ++ b) := rfl
      have h2 : joinSp (x :: z :: zs) = x ++ " " ++ joinSp (z :: zs) := rfl
      rw [h1, ih b (by simp) hb, h2]
      simp [String.append_assoc]

theorem joinSp_prefix_snoc (cur : List String) (x : String) (h : cur ≠ []) :
    (joinSp cur).data <+: (joinSp (cur ++ [x])).data := by
  rw [joinSp_append cur [x] h (by simp), String.data_append, String.data_append]
  rw [List.append_assoc]
  exact List.prefix_append _ _

theorem joinSp_suffix (ov cur : List String) (hs : ov <:+ cur) (hov : ov ≠ []) :
    (joinSp ov).data <:+ (joinSp cur).data := by
  obtain ⟨pre, hpre⟩ := hs
  cases pre with
  | nil => rw [← hpre]; simp
  | cons p ps =>
    rw [← hpre, joinSp_append (p :: ps) ov (by simp) hov, String.data_append]
    exact List.suffix_append _ _

theorem joinSp_ne_empty (a : String) (l : List String) (ha : a ≠ "") :
    joinSp (a :: l) ≠ "" := by
  cases l with
  | nil => simpa [joinSp] using ha
  | cons b bs =>
    intro hcontra
    have h2 : joinSp (a :: b :: bs) = a ++ " " ++ joinSp (b :: bs) := rfl
    have hlen := congrArg String.length hcontra
    rw [h2, String.length_append, String.length_append] at hlen
    have hsp : (" " : String).length = 1 := rfl
    rw [hsp] at hlen
    have hz : ("" : String).length = 0 := rfl
    rw [hz] at hlen
    omega

theorem chunkLoop_chain (pn : Int) (doc : String) :
    ∀ (sents : List String) (chunks : List Chunk) (current : List String) (ct idx : Nat),
      (∀ x ∈ sents, x ≠ "") →
      (∀ x ∈ current, x ≠ "") →
      List.Chain' overlapP chunks →
      (∀ c ∈ chunks.getLast?, current ≠ [] ∧
        ∃ s : String, s ≠ "" ∧ s.data <:+ c.chunk_text.data ∧
          s.data <+: (joinSp current).data) →
      List.Chain' overlapP (chunkLoop pn doc sents chunks current ct idx) := by
  intro sents
  induction sents with
  | nil =>
    intro chunks current ct idx _ _ hchain hlink
    rw [chunkLoop]
    by_cases hcur : current = []
    · rw [if_pos hcur]; exact hchain
    · rw [if_neg hcur]
      rw [List.chain'_append]
      refine ⟨hchain, List.chain'_singleton _, ?_⟩
      intro x hx y hy
      simp only [List.head?_cons, Option.mem_def, Option.some.injEq] at hy
      obtain ⟨_, s, hs1, hs2, hs3⟩ := hlink x hx
      exact ⟨s, hs1, hs2, by rw [← hy]; exact hs3⟩
  | cons sent rest ih =>
    intro chunks current ct idx hsents hcur hchain hlink
    rw [chunkLoop]
    by_cases hclose : current ≠ [] ∧ MAX_TOKENS < ct + approx_tokens sent
    · rw [if_pos hclose]
      obtain ⟨hovne, hovsuf⟩ := overlapOf_suffix current hclose.1
      apply ih
      · exact fun x hx => hsents x (List.mem_cons_of_mem _ hx)
      · intro x hx
        rcases List.mem_append.mp hx with hx' | hx'
        · exact hcur x (hovsuf.subset hx')
        · rw [List.mem_singleton.mp hx']
          exact hsents sent (List.mem_cons_self sent rest)
      · rw [List.chain'_append]
        refine ⟨hchain, List.chain'_singleton _, ?_⟩
        intro x hx y hy
        simp only [List.head?_cons, Option.mem_def, Option.some.injEq] at hy
        obtain ⟨_, s, hs1, hs2, hs3⟩ := hlink x hx
        exact ⟨s, hs1, hs2, by rw [← hy]; exact hs3⟩
      · intro c hc
        rw [List.getLast?_append] at hc
        simp only [List.getLast?_singleton, Option.or_some, Option.mem_def,
          Option.some.injEq] at hc
        refine ⟨by simp, joinSp (overlapOf current).1, ?_, ?_, ?_⟩
        · obtain ⟨a, l, hal⟩ := List.exists_cons_of_ne_nil hovne
          rw [hal]
          refine joinSp_ne_empty a l (hcur a (hovsuf.subset ?_))
          rw [hal]
          exact List.mem_cons_self a l
        · rw [← hc]
          exact joinSp_suffix _ _ hovsuf hovne
        · exact joinSp_prefix_snoc _ _ hovne
    · rw [if_neg hclose]
      apply ih
      · exact fun x hx => hsents x (List.mem_cons_of_mem _ hx)
      · intro x hx
        rcases List.mem_append.mp hx with hx' | hx'
        · exact hcur x hx'
        · rw [List.mem_singleton.mp hx']
          exact hsents sent (List.mem_cons_self sent rest)
      · exact hchain
      · intro c hc
        obtain ⟨hne, s, hs1, hs2, hs3⟩ := hlink c hc
        refine ⟨by simp, s, hs1, hs2, ?_⟩
        exact hs3.trans (joinSp_prefix_snoc current sent hne)

theorem split_into_sentences_ne_empty (text : String) :
    ∀ p ∈ split_into_sentences text, p ≠ "" := by
  intro p hp
  rw [split_into_sentences] at hp
  by_cases h : pyStrip text = ""
  · simp [h] at hp
  · simp only [h, if_false, List.mem_filter] at hp
    simpa using hp.2

end Ingestion

/-- Claim C5: for every page text chunked by _chunk_page_text, whenever a
chunk is closed because adding the next sentence would exceed the upper
token bound, the overlap sentences at the closed chunk's tail are
byte-identical to the prefix of the next emitted chunk's text.  Every chunk
except the last in the returned list is closed by the length rule (the last
is the end-of-page flush), so the property is exactly that every adjacent
pair of chunks shares a non-empty string that is a suffix of the earlier
chunk's text and a prefix of the later chunk's text. -/
theorem c5_chunk_overlap_prefix (pn : Int) (doc text : String) :
    List.Chain' Ingestion.overlapP (Ingestion.chunk_page_text pn doc text) := by
  rw [Ingestion.chunk_page_text]
  by_cases h1 : pyStrip text = ""
  · rw [if_pos h1]
    exact List.chain'_singleton _
  · rw [if_neg h1]
    by_cases h2 : Ingestion.split_into_sentences text = []
    · rw [if_pos h2]
      exact List.chain'_singleton _
    · rw [if_neg h2]
      apply Ingestion.chunkLoop_chain
      · exact Ingestion.split_into_sentences_ne_empty text
      · intro x hx; simp at hx
      · exact List.chain'_nil
      · intro c hc; simp at hc

/-! ## Section retriever (src/backend/retrieval.py) -/

namespace Retrieval

/-- One hit returned by the vector-index collaborator storage.query:
a dict with keys chunk_id, page_number, chunk_text, distance.  Option
models a missing key or a null value; the float distance is modelled by
Rat (the code only compares distances, and < on non-NaN floats is the
rational order). -/
structure Hit where
  chunk_id : Option String
  page_number : Option Int
  chunk_text : Option String
  distance : Option Rat
deriving DecidableEq, Repr

/-- A merged entry of retrieve_for_section: dict(h) plus the added
"section" key (field sec here, since section is a Lean keyword). -/
structure RetrievedChunk where
  chunk_id : Option String
  page_number : Option Int
  chunk_text : Option String
  distance : Option Rat
  sec : String
deriving DecidableEq, Repr

/-- out = dict(h); out["section"] = section_name. -/
def withSection (section_name : String) (h : Hit) : RetrievedChunk :=
  ⟨h.chunk_id, h.page_number, h.chunk_text, h.distance, section_name⟩

/-- CORE_SECTIONS: the six canonical section names. -/
def CORE_SECTIONS : List String :=
  ["Plan Snapshot", "Cost Summary", "Summary of Covered Services",
   "Administrative Conditions", "Exclusions & Limitations",
   "Claims, Appeals & Member Rights"]

/-- SECTION_QUERIES.get(section_name): the fixed multi-query expansion
table; none for an unknown section name. -/
def SECTION_QUERIES (s : String) : Option (List String) :=
  if s = "Plan Snapshot" then
    some ["plan name and type", "summary of benefits overview",
          "plan overview and key features"]
  else if s = "Cost Summary" then
    some ["deductible amount and when it applies", "copay and coinsurance",
          "out of pocket maximum OOP", "annual deductible",
          "cost sharing requirements"]
  else if s = "Summary of Covered Services" then
    some ["what is covered", "covered benefits and services",
          "coverage details", "covered medical services",
          "benefits included in plan"]
  else if s = "Administrative Conditions" then
    some ["prior authorization", "referrals required",
          "administrative requirements"]
  else if s = "Exclusions & Limitations" then
    some ["exclusions not covered", "limitations and restrictions",
          "what is not covered"]
  else if s = "Claims, Appeals & Member Rights" then
    some ["how to file a claim", "appeals and grievances",
          "member rights and responsibilities"]
  else none

/-- cid = h.get("chunk_id") or "". -/
def cidOf (h : Hit) : String := h.chunk_id.getD ""

/-- Lookup in the insertion-ordered dict seen (modelled as an association
list whose keys are unique). -/
def findVal (seen : List (String × Hit)) (cid : String) : Option Hit :=
  (seen.find? (fun p => p.1 = cid)).map (fun p => p.2)

/-- seen[cid] = v on an existing key: the value is replaced in place, the
insertion position is kept (Python dict update semantics). -/
def updateVal (seen : List (String × Hit)) (cid : String) (v : Hit) :
    List (String × Hit) :=
  seen.map (fun p => if p.1 = cid then (p.1, v) else p)

/-- The body of the dedup-and-merge loop of retrieve_for_section for one
hit h: skip hits without a chunk_id; insert unseen chunk_ids at the end;
replace a seen chunk_id only when both distances are non-null and the new
one is strictly smaller. -/
def mergeStep (seen : List (String × Hit)) (h : Hit) : List (String × Hit) :=
  if cidOf h = "" then seen
  else
    match findVal seen (cidOf h) with
    | none => seen ++ [(cidOf h, h)]
    | some prev =>
      match h.distance, prev.distance with
      | some d, some dPrev => if d < dPrev then updateVal seen (cidOf h) h else seen
      | _, _ => seen

/-- The merge of all hits of all sub-queries, processed in order. -/
def mergeHits (hits : List Hit) : List (String × Hit) :=
  hits.foldl mergeStep []

/-- The ordering key of the final sort:
(x.get("page_number", 0), x.get("chunk_id", "")). -/
def sortKey (rc : RetrievedChunk) : Int × String :=
  (rc.page_number.getD 0, rc.chunk_id.getD "")

/-- Python tuple comparison (int, str) <=: lexicographic. -/
def keyLe (p q : Int × String) : Prop :=
  p.1 < q.1 ∨ (p.1 = q.1 ∧ p.2 ≤ q.2)

instance keyLe_decidable (p q : Int × String) : Decidable (keyLe p q) := by
  unfold keyLe; infer_instance

/-- The boolean comparison handed to the sort. -/
def rcLe (a b : RetrievedChunk) : Bool :=
  decide (keyLe (sortKey a) (sortKey b))

/-- retrieve_for_section, with the vector-index collaborator passed as the
oracle query (doc_id, query text, top_k) ↦ hits.  Python's sorted is a
stable sort by key, modelled by mergeSort with the key comparison (both
are stable, hence produce identical output); max_chunks is the
nonnegative slice bound ordered[:max_chunks]. -/
def retrieve_for_section (query : String → String → Int → List Hit)
    (doc_id section_name : String) (top_k_per_query : Int) (max_chunks : Nat) :
    List RetrievedChunk :=
  match SECTION_QUERIES section_name with
  | none => []
  | some queries =>
    if queries = [] then []
    else
      let hits := (queries.filter (fun q => pyStrip q ≠ "")).flatMap
        (fun q => query doc_id (pyStrip q) top_k_per_query)
      let ordered :=
        ((mergeHits hits).map (fun p => withSection section_name p.2)).mergeSort rcLe
      ordered.take max_chunks

theorem keyLe_trans (p q r : Int × String) (h1 : keyLe p q) (h2 : keyLe q r) :
    keyLe p r := by
  rcases h1 with h1 | ⟨h1e, h1s⟩ <;> rcases h2 with h2 | ⟨h2e, h2s⟩
  · exact Or.inl (lt_trans h1 h2)
  · exact Or.inl (h2e ▸ h1)
  · exact Or.inl (h1e ▸ h2)
  · exact Or.inr ⟨h1e.trans h2e, le_trans h1s h2s⟩

theorem keyLe_total (p q : Int × String) : keyLe p q ∨ keyLe q p := by
  rcases lt_trichotomy p.1 q.1 with h | h | h
  · exact Or.inl (Or.inl h)
  · rcases le_total p.2 q.2 with hs | hs
    · exact Or.inl (Or.inr ⟨h, hs⟩)
    · exact Or.inr (Or.inr ⟨h.symm, hs⟩)
  · exact Or.inr (Or.inl h)

theorem find?_eq_head_filter {α : Type} (p : α → Bool) (l : List α) :
    l.find? p = (l.filter p).head? := by
  induction l with
  | nil => rfl
  | cons a l ih =>
    cases h : p a with
    | false =>
      have h1 : List.find? p (a :: l) = List.find? p l := by
        rw [List.find?_cons, h]
      have h2 : List.filter p (a :: l) = List.filter p l := by
        rw [List.filter_cons, h]; simp
      rw [h1, h2, ih]
    | true =>
      have h1 : List.find? p (a :: l) = some a := by
        rw [List.find?_cons, h]
      have h2 : List.filter p (a :: l) = a :: List.filter p l := by
        rw [List.filter_cons, h]; simp
      rw [h1, h2]
      rfl

theorem updateVal_filter (cid c : String) (v : Hit) (seen : List (String × Hit)) :
    (updateVal seen cid v).filter (fun p => p.1 = c) =
      (seen.filter (fun p => p.1 = c)).map
        (fun p => if p.1 = cid then (p.1, v) else p) := by
  induction seen with
  | nil => rfl
  | cons e rest ih =>
    simp only [updateVal, List.map_cons] at ih ⊢
    by_cases hec : e.1 = cid
    · by_cases hc' : e.1 = c
      · have h1 : cid = c := hec.symm.trans hc'
        subst h1
        simp [List.filter_cons, hec, hc', ih]
      · have h1 : ¬(cid = c) := fun hq => hc' (hec.trans hq)
        simp [List.filter_cons, hec, hc', h1, ih]
    · by_cases hc' : e.1 = c
      · have h1 : ¬(c = cid) := fun hq => hec (hc'.trans hq)
        simp [List.filter_cons, hec, hc', h1, ih]
      · simp [List.filter_cons, hec, hc', ih]

theorem updateVal_filter_ne (cid c : String) (v : Hit) (h : cid ≠ c)
    (seen : List (String × Hit)) :
    (updateVal seen cid v).filter (fun p => p.1 = c) =
      seen.filter (fun p => p.1 = c) := by
  rw [updateVal_filter]
  have hid : ∀ p ∈ seen.filter (fun p => (p : String × Hit).1 = c),
      (if p.1 = cid then (p.1, v) else p) = p := by
    intro p hp
    have hpc : p.1 = c := by simpa using (List.mem_filter.mp hp).2
    rw [if_neg (fun hcc => h (hpc ▸ hcc).symm)]
  rw [List.map_congr_left hid]
  simp

theorem updateVal_filter_eq (cid : String) (v : Hit) (seen : List (String × Hit)) :
    (updateVal seen cid v).filter (fun p => p.1 = cid) =
      (seen.filter (fun p => p.1 = cid)).map (fun p => (p.1, v)) := by
  rw [updateVal_filter]
  apply List.map_congr_left
  intro p hp
  have hpc : p.1 = cid := by simpa using (List.mem_filter.mp hp).2
  rw [if_pos hpc]

theorem mergeStep_new (seen : List (String × Hit)) (h : Hit)
    (h0 : cidOf h ≠ "") (hf : findVal seen (cidOf h) = none) :
    mergeStep seen h = seen ++ [(cidOf h, h)] := by
  rw [mergeStep, if_neg h0, hf]

theorem mergeStep_old (seen : List (String × Hit)) (h prev : Hit) (d dPrev : Rat)
    (h0 : cidOf h ≠ "") (hf : findVal seen (cidOf h) = some prev)
    (hd : h.distance = some d) (hp : prev.distance = some dPrev) :
    mergeStep seen h = if d < dPrev then updateVal seen (cidOf h) h else seen := by
  rw [mergeStep, if_neg h0, hf]
  dsimp only
  rw [hd, hp]

theorem mergeStep_null_new (seen : List (String × Hit)) (h prev : Hit)
    (h0 : cidOf h ≠ "") (hf : findVal seen (cidOf h) = some prev)
    (hd : h.distance = none) :
    mergeStep seen h = seen := by
  rw [mergeStep, if_neg h0, hf]
  dsimp only
  rw [hd]

theorem mergeStep_null_old (seen : List (String × Hit)) (h prev : Hit) (d : Rat)
    (h0 : cidOf h ≠ "") (hf : findVal seen (cidOf h) = some prev)
    (hd : h.distance = some d) (hp : prev.distance = none) :
    mergeStep seen h = seen := by
  rw [mergeStep, if_neg h0, hf]
  dsimp only
  rw [hd, hp]

theorem mergeStep_filter_ne (seen : List (String × Hit)) (h : Hit) (c : String)
    (hne : cidOf h ≠ c) :
    (mergeStep seen h).filter (fun p => p.1 = c) = seen.filter (fun p => p.1 = c) := by
  by_cases h0 : cidOf h = ""
  · rw [mergeStep, if_pos h0]
  · cases hf : findVal seen (cidOf h) with
    | none =>
      rw [mergeStep_new seen h h0 hf, List.filter_append]
      have hcc : ((cidOf h, h) : String × Hit).1 = c ↔ False := by
        simp only [iff_false]; exact hne
      simp [hcc]
    | some prev =>
      cases hd : h.distance with
      | none => rw [mergeStep_null_new seen h prev h0 hf hd]
      | some d =>
        cases hp : prev.distance with
        | none => rw [mergeStep_null_old seen h prev d h0 hf hd hp]
        | some dPrev =>
          rw [mergeStep_old seen h prev d dPrev h0 hf hd hp]
          by_cases hlt : d < dPrev
          · rw [if_pos hlt]
            exact updateVal_filter_ne (cidOf h) c h hne seen
          · rw [if_neg hlt]

theorem foldl_mergeStep_filter_ne (c : String) :
    ∀ (l : List Hit) (seen : List (String × Hit)), (∀ x ∈ l, cidOf x ≠ c) →
      (l.foldl mergeStep seen).filter (fun p => p.1 = c) =
        seen.filter (fun p => p.1 = c) := by
  intro l
  induction l with
  | nil => intro seen _; rfl
  | cons x l ih =>
    intro seen hl
    rw [List.foldl_cons, ih _ (fun y hy => hl y (List.mem_cons_of_mem _ hy)),
      mergeStep_filter_ne seen x c (hl x (List.mem_cons_self x l))]

end Retrieval

/-- Claim C6: when the hit stream of retrieve_for_section contains exactly
two hits for a chunk_id c, carrying distinct non-null distances d1 and d2,
the merged dict contains c exactly once and its entry carries the strictly
smaller of the two distances (the merge is distance-aware, not
first-wins). -/
theorem c6_merge_keeps_min_distance
    (l1 l2 l3 : List Retrieval.Hit) (h1 h2 : Retrieval.Hit) (c : String) (d1 d2 : Rat)
    (hc : c ≠ "") (hc1 : Retrieval.cidOf h1 = c) (hc2 : Retrieval.cidOf h2 = c)
    (hd1 : h1.distance = some d1) (hd2 : h2.distance = some d2) (_hdne : d1 ≠ d2)
    (hl1 : ∀ x ∈ l1, Retrieval.cidOf x ≠ c) (hl2 : ∀ x ∈ l2, Retrieval.cidOf x ≠ c)
    (hl3 : ∀ x ∈ l3, Retrieval.cidOf x ≠ c) :
    ((Retrieval.mergeHits (l1 ++ h1 :: (l2 ++ h2 :: l3))).filter
        (fun p => p.1 = c)).map (fun p => p.2.distance) = [some (min d1 d2)] := by
  rw [Retrieval.mergeHits, List.foldl_append, List.foldl_cons, List.foldl_append,
    List.foldl_cons]
  have hcne : Retrieval.cidOf h1 ≠ "" := by rw [hc1]; exact hc
  have hcne2 : Retrieval.cidOf h2 ≠ "" := by rw [hc2]; exact hc
  -- after l1, no entry with key c
  have f0 : (List.foldl Retrieval.mergeStep [] l1).filter (fun p => p.1 = c) = [] :=
    Retrieval.foldl_mergeStep_filter_ne c l1 [] hl1
  -- processing h1 appends (c, h1)
  have hfind0 : Retrieval.findVal (List.foldl Retrieval.mergeStep [] l1)
      (Retrieval.cidOf h1) = none := by
    rw [Retrieval.findVal, hc1, Retrieval.find?_eq_head_filter, f0]
    rfl
  rw [Retrieval.mergeStep_new _ _ hcne hfind0]
  -- after l2, the only entry with key c is (c, h1)
  have f2 : ((l2.foldl Retrieval.mergeStep
      (List.foldl Retrieval.mergeStep [] l1 ++ [(Retrieval.cidOf h1, h1)])).filter
        (fun p => p.1 = c)) = [(c, h1)] := by
    rw [Retrieval.foldl_mergeStep_filter_ne c l2 _ hl2, List.filter_append, f0, hc1]
    simp
  -- processing h2 keeps the strictly smaller distance
  have hfind2 : Retrieval.findVal (l2.foldl Retrieval.mergeStep
      (List.foldl Retrieval.mergeStep [] l1 ++ [(Retrieval.cidOf h1, h1)]))
      (Retrieval.cidOf h2) = some h1 := by
    rw [Retrieval.findVal, hc2, Retrieval.find?_eq_head_filter, f2]
    rfl
  rw [Retrieval.mergeStep_old _ _ _ d2 d1 hcne2 hfind2 hd2 hd1]
  by_cases hlt : d2 < d1
  · rw [if_pos hlt, Retrieval.foldl_mergeStep_filter_ne c l3 _ hl3, hc2,
      Retrieval.updateVal_filter_eq, f2]
    rw [min_eq_right (le_of_lt hlt)]
    simp [hd2]
  · rw [if_neg hlt, Retrieval.foldl_mergeStep_filter_ne c l3 _ hl3, f2]
    rw [min_eq_left (le_of_not_lt hlt)]
    simp [hd1]

/-- Witness for C6 at a concrete input: two hits for chunk c_1_0 with
distances 2 and 1; the merged result keeps distance 1 exactly once. -/
theorem c6_merge_keeps_min_distance_witness :
    (2 : Rat) ≠ 1 ∧
    ((Retrieval.mergeHits
        [⟨some "c_1_0", some 1, some "t1", some 2⟩,
         ⟨some "c_1_0", some 1, some "t2", some 1⟩]).filter
      (fun p => p.1 = "c_1_0")).map (fun p => p.2.distance) = [some 1] := by
  refine ⟨by norm_num, ?_⟩
  have h := c6_merge_keeps_min_distance [] [] []
    ⟨some "c_1_0", some 1, some "t1", some 2⟩
    ⟨some "c_1_0", some 1, some "t2", some 1⟩ "c_1_0" 2 1
    (by decide) rfl rfl rfl rfl (by norm_num)
    (by intro x hx; simp at hx) (by intro x hx; simp at hx)
    (by intro x hx; simp at hx)
  simpa using h

/-- Claim C7: for every vector-index oracle, doc_id, section_name,
top_k_per_query and max_chunks, the list returned by retrieve_for_section
has length at most max_chunks and is sorted ascending by the pair
(page_number, chunk_id). -/
theorem c7_retrieval_sorted_and_bounded
    (query : String → String → Int → List Retrieval.Hit)
    (doc_id section_name : String) (top_k_per_query : Int) (max_chunks : Nat) :
    (Retrieval.retrieve_for_section query doc_id section_name top_k_per_query
        max_chunks).length ≤ max_chunks ∧
    List.Pairwise (fun a b => Retrieval.keyLe (Retrieval.sortKey a) (Retrieval.sortKey b))
      (Retrieval.retrieve_for_section query doc_id section_name top_k_per_query
        max_chunks) := by
  rw [Retrieval.retrieve_for_section]
  cases hq : Retrieval.SECTION_QUERIES section_name with
  | none => simp
  | some queries =>
    by_cases he : queries = []
    · simp [he]
    · simp only [he, if_false]
      constructor
      · rw [List.length_take]
        exact min_le_left _ _
      · have hsorted := @List.sorted_mergeSort _ Retrieval.rcLe
          (fun a b c hab hbc => by
            rw [Retrieval.rcLe, decide_eq_true_iff] at hab hbc ⊢
            exact Retrieval.keyLe_trans _ _ _ hab hbc)
          (fun a b => by
            rw [Bool.or_eq_true, Retrieval.rcLe, Retrieval.rcLe,
              decide_eq_true_iff, decide_eq_true_iff]
            exact Retrieval.keyLe_total _ _)
          ((Retrieval.mergeHits
              ((queries.filter (fun q => pyStrip q ≠ "")).flatMap
                (fun q => query doc_id (pyStrip q) top_k_per_query))).map
            (fun p => Retrieval.withSection section_name p.2))
        have htake := hsorted.sublist (List.take_sublist max_chunks _)
        exact htake.imp (fun hab => by
          rw [Retrieval.rcLe, decide_eq_true_iff] at hab; exact hab)

/-! ## Citation validation (src/backend/summarization.py and
src/backend/qa.py) -/

/-- A validated citation (backend.schemas.Citation). -/
structure Citation where
  page : Int
  chunk_id : String
deriving DecidableEq, Repr

/-- A bullet with validated citations (backend.schemas.BulletWithCitations). -/
structure BulletWithCitations where
  text : String
  citations : List Citation
deriving DecidableEq, Repr

/-- An untrusted citation dict from parsed LLM output: none models a
missing key or a value of the wrong type (a non-dict list entry is
likewise dropped by the code and is modelled as a citation with no
fields; for qa.ask, whose int() call also coerces numeric strings, an
int-coercible page value is modelled by its integer value). -/
structure RawCitation where
  page : Option Int
  chunk_id : Option String
deriving DecidableEq, Repr

/-- An untrusted bullet dict from parsed LLM output. -/
structure RawBullet where
  text : Option String
  citations : List RawCitation
deriving DecidableEq, Repr

namespace Summarization

/-- The allow-set construction used by both summarize_section and qa.ask:
the set comprehension over the retrieved chunks, skipping falsy (missing
or empty) chunk_ids. -/
def allowed_chunk_ids (chunks : List Retrieval.Hit) : List String :=
  (chunks.filterMap (fun c => match c.chunk_id with
    | some s => if s ≠ "" then some s else none
    | none => none)).dedup

theorem empty_not_mem_allowed (chunks : List Retrieval.Hit) :
    "" ∉ allowed_chunk_ids chunks := by
  intro hmem
  rw [allowed_chunk_ids, List.mem_dedup, List.mem_filterMap] at hmem
  obtain ⟨c, _, hc⟩ := hmem
  obtain ⟨ccid, cpage, ctext, cdist⟩ := c
  cases ccid with
  | none => exact Option.noConfusion hc
  | some s =>
    simp only at hc
    by_cases hne : s ≠ ""
    · rw [if_pos hne] at hc
      exact hne (Option.some.inj hc)
    · rw [if_neg hne] at hc
      exact Option.noConfusion hc

/-- The keep test of _validate_citations for one candidate citation:
isinstance(page, int) and page >= 1 and isinstance(chunk_id, str) and
chunk_id and chunk_id in allowed_chunk_ids. -/
def keep_citation (allowed : List String) (c : RawCitation) : Option Citation :=
  match c.page, c.chunk_id with
  | some p, some s =>
    if 1 ≤ p ∧ s ≠ "" ∧ s ∈ allowed then some ⟨p, s⟩ else none
  | _, _ => none

/-- _validate_citations: map over the bullets, keeping only the candidate
citations passing the keep test (b.get("text") or "" for the text). -/
def validate_citations (bullets : List RawBullet) (allowed : List String) :
    List BulletWithCitations :=
  bullets.map (fun b => ⟨b.text.getD "", b.citations.filterMap (keep_citation allowed)⟩)

theorem keep_citation_eq_some (allowed : List String) (c : RawCitation)
    (p : Int) (s : String) (hne : "" ∉ allowed) :
    keep_citation allowed c = some ⟨p, s⟩ ↔
      c.page = some p ∧ c.chunk_id = some s ∧ 1 ≤ p ∧ s ∈ allowed := by
  obtain ⟨cpage, ccid⟩ := c
  cases cpage with
  | none => simp [keep_citation]
  | some p' =>
    cases ccid with
    | none => simp [keep_citation]
    | some s' =>
      simp only [keep_citation, Option.some.injEq]
      by_cases hcond : 1 ≤ p' ∧ s' ≠ "" ∧ s' ∈ allowed
      · simp only [if_pos hcond, Option.some.injEq, Citation.mk.injEq]
        constructor
        · rintro ⟨rfl, rfl⟩
          exact ⟨rfl, rfl, hcond.1, hcond.2.2⟩
        · rintro ⟨hpp, hss, _, _⟩
          exact ⟨hpp, hss⟩
      · simp only [if_neg hcond]
        constructor
        · intro hcontra; exact absurd hcontra (by simp)
        · rintro ⟨rfl, rfl, hp1, hsmem⟩
          exact absurd ⟨hp1, fun hemp => hne (hemp ▸ hsmem), hsmem⟩ hcond

end Summarization

namespace QA

/-- The keep test of the strict citation filtering loop in qa.ask for one
candidate citation: chunk_id in the allow-set, then
page_num = int(c.get("page", 0)) > 0 (a missing or non-coercible page is
dropped). -/
def qa_keep (allowed : List String) (c : RawCitation) : Option Citation :=
  match c.chunk_id with
  | some s =>
    if s ∈ allowed then
      (if 0 < c.page.getD 0 then some ⟨c.page.getD 0, s⟩ else none)
    else none
  | none => none

/-- The strict citation filtering loop of qa.ask. -/
def filter_citations (raw : List RawCitation) (allowed : List String) :
    List Citation :=
  raw.filterMap (qa_keep allowed)

theorem qa_keep_eq_some (allowed : List String) (c : RawCitation)
    (p : Int) (s : String) :
    qa_keep allowed c = some ⟨p, s⟩ ↔
      c.page.getD 0 = p ∧ c.chunk_id = some s ∧ 1 ≤ p ∧ s ∈ allowed := by
  obtain ⟨cpage, ccid⟩ := c
  cases ccid with
  | none => simp [qa_keep]
  | some s' =>
    simp only [qa_keep, Option.some.injEq]
    by_cases hmem : s' ∈ allowed
    · rw [if_pos hmem]
      by_cases hpg : 0 < cpage.getD 0
      · simp only [if_pos hpg, Option.some.injEq, Citation.mk.injEq]
        constructor
        · rintro ⟨rfl, rfl⟩
          exact ⟨rfl, rfl, hpg, hmem⟩
        · rintro ⟨hpp, hss, _, _⟩
          exact ⟨hpp, hss⟩
      · simp only [if_neg hpg]
        constructor
        · intro hcontra; exact absurd hcontra (by simp)
        · rintro ⟨rfl, _, hp1, _⟩
          exact absurd hp1 hpg
    · rw [if_neg hmem]
      constructor
      · intro hcontra; exact absurd hcontra (by simp)
      · rintro ⟨_, rfl, _, hsmem⟩
        exact absurd hsmem hmem

end QA

/-- Claim C1: at both consumption sites (the section-summary validator
_validate_citations and the strict filtering loop of qa.ask), a candidate
citation is kept if and only if its page number is at least 1 and its
chunk_id belongs to the allow-set built from the chunks returned by the
retrieval call; a citation with page <= 0 is dropped even when its
chunk_id is allowed, and a citation with an unretrieved chunk_id is
dropped even when its page is valid. -/
theorem c1_citation_filter_iff (chunks : List Retrieval.Hit) (b : RawBullet)
    (p : Int) (s : String) :
    ((⟨p, s⟩ : Citation) ∈
        (Summarization.validate_citations [b]
          (Summarization.allowed_chunk_ids chunks)).flatMap
            (fun x => x.citations) ↔
      (∃ c ∈ b.citations, c.page = some p ∧ c.chunk_id = some s) ∧
        1 ≤ p ∧ s ∈ Summarization.allowed_chunk_ids chunks) ∧
    ((⟨p, s⟩ : Citation) ∈
        QA.filter_citations b.citations (Summarization.allowed_chunk_ids chunks) ↔
      (∃ c ∈ b.citations, c.page.getD 0 = p ∧ c.chunk_id = some s) ∧
        1 ≤ p ∧ s ∈ Summarization.allowed_chunk_ids chunks) := by
  have hne := Summarization.empty_not_mem_allowed chunks
  constructor
  · rw [Summarization.validate_citations]
    simp only [List.map_cons, List.map_nil, List.flatMap_cons, List.flatMap_nil,
      List.append_nil, List.mem_filterMap]
    constructor
    · rintro ⟨c, hc, hkeep⟩
      rw [Summarization.keep_citation_eq_some _ _ _ _ hne] at hkeep
      exact ⟨⟨c, hc, hkeep.1, hkeep.2.1⟩, hkeep.2.2.1, hkeep.2.2.2⟩
    · rintro ⟨⟨c, hc, hcp, hcs⟩, hp1, hsmem⟩
      refine ⟨c, hc, ?_⟩
      rw [Summarization.keep_citation_eq_some _ _ _ _ hne]
      exact ⟨hcp, hcs, hp1, hsmem⟩
  · rw [QA.filter_citations]
    simp only [List.mem_filterMap]
    constructor
    · rintro ⟨c, hc, hkeep⟩
      rw [QA.qa_keep_eq_some] at hkeep
      exact ⟨⟨c, hc, hkeep.1, hkeep.2.1⟩, hkeep.2.2.1, hkeep.2.2.2⟩
    · rintro ⟨⟨c, hc, hcp, hcs⟩, hp1, hsmem⟩
      refine ⟨c, hc, ?_⟩
      rw [QA.qa_keep_eq_some]
      exact ⟨hcp, hcs, hp1, hsmem⟩

/-! ## Evaluation layer

The source tree contains two divergent iterations of the evaluation
module: src/evaluation.py (namespace Eval below) and
src/backend/evaluation.py (namespace BEval below).  The tokenization
helpers _normalize_tokens, _extract_numbers and _chunk_supports_bullet
are line-for-line identical in the two files and are embedded once. -/

/-- The character class [a-z0-9] of _normalize_tokens. -/
def isTokenChar (c : Char) : Bool :=
  ('a' ≤ c ∧ c ≤ 'z') ∨ ('0' ≤ c ∧ c ≤ '9')

/-- re.findall(r"[a-z0-9]+", s): the maximal runs of token characters,
left to right.  The fuel only bounds the recursion depth and is never
exhausted, since every step consumes at least one character. -/
def tokenRunsF : Nat → List Char → List String
  | 0, _ => []
  | _, [] => []
  | fuel + 1, c :: rest =>
    if isTokenChar c then
      String.mk (c :: List.takeWhile isTokenChar rest) ::
        tokenRunsF fuel (List.dropWhile isTokenChar rest)
    else tokenRunsF fuel rest

/-- re.findall(r"[a-z0-9]+", s). -/
def tokenRuns (cs : List Char) : List String := tokenRunsF cs.length cs

/-- _normalize_tokens: set(re.findall(r"[a-z0-9]+", text.lower())); the
set is modelled as the deduplicated token list (membership and cardinality
agree with the Python set). -/
def normalize_tokens (text : String) : List String :=
  (tokenRuns (pyLower text).data).dedup

/-- One match of re.findall(r"\d+\.?\d*", ...) starting at digit c:
maximal digits, an optional dot, then maximal digits; returns the matched
token and the remainder of the scan. -/
def numTokenAt (c : Char) (rest : List Char) : String × List Char :=
  let intPart := c :: List.takeWhile Char.isDigit rest
  match List.dropWhile Char.isDigit rest with
  | d :: rest2 =>
    if d = '.' then
      (String.mk (intPart ++ ['.'] ++ List.takeWhile Char.isDigit rest2),
        List.dropWhile Char.isDigit rest2)
    else (String.mk intPart, d :: rest2)
  | [] => (String.mk intPart, [])

theorem numTokenAt_snd_le (c : Char) (rest : List Char) :
    (numTokenAt c rest).2.length ≤ rest.length := by
  have h1 : (List.dropWhile Char.isDigit rest).length ≤ rest.length :=
    (List.dropWhile_sublist _).length_le
  rw [numTokenAt]
  cases hd : List.dropWhile Char.isDigit rest with
  | nil => simp
  | cons d rest2 =>
    rw [hd] at h1
    by_cases hdot : d = '.'
    · simp only [if_pos hdot]
      have h2 : (List.dropWhile Char.isDigit rest2).length ≤ rest2.length :=
        (List.dropWhile_sublist _).length_le
      simp only [List.length_cons] at h1
      omega
    · simp only [if_neg hdot]
      exact h1

/-- re.findall(r"\d+\.?\d*", s): all numeric tokens, left to right,
non-overlapping.  As with tokenRunsF, the fuel is never exhausted
(numTokenAt_snd_le bounds the remainder). -/
def numTokensF : Nat → List Char → List String
  | 0, _ => []
  | _, [] => []
  | fuel + 1, c :: rest =>
    if c.isDigit then
      (numTokenAt c rest).1 :: numTokensF fuel (numTokenAt c rest).2
    else numTokensF fuel rest

/-- re.findall(r"\d+\.?\d*", s). -/
def numTokens (cs : List Char) : List String := numTokensF cs.length cs

/-- _extract_numbers: set(re.findall(r"\d+\.?\d*", text)). -/
def extract_numbers (text : String) : List String :=
  (numTokens text.data).dedup

/-- The word-overlap threshold test
len(bullet & chunk) / len(bullet) >= min_overlap with min_overlap = 0.15.
The float comparison is modelled by the exact rational inequality
inter / total >= 15/100, i.e. 3 * total <= 20 * inter, which agrees with
the float evaluation for all realistic token counts. -/
def overlap_ratio_ge_min (inter total : Nat) : Bool :=
  3 * total ≤ 20 * inter

/-- _chunk_supports_bullet (identical in both evaluation iterations):
a tokenless bullet is vacuously supported; otherwise the word-overlap
test, then the numeric-subset test. -/
def chunk_supports_bullet (bullet_text : String) (chunk : Ingestion.Chunk) : Bool :=
  let bullet_tokens := normalize_tokens bullet_text
  let chunk_tokens := normalize_tokens chunk.chunk_text
  if bullet_tokens = [] then true
  else if overlap_ratio_ge_min
      ((bullet_tokens.filter (fun t => t ∈ chunk_tokens)).length)
      bullet_tokens.length then true
  else
    let bullet_nums := extract_numbers bullet_text
    let chunk_nums := extract_numbers chunk.chunk_text
    !bullet_nums.isEmpty && bullet_nums.all (fun n => n ∈ chunk_nums)

/-- chunks_by_id = dict comprehension keyed by chunk_id: the last
occurrence of a duplicated chunk_id wins. -/
def chunks_by_id (chunks : List Ingestion.Chunk) (cid : String) :
    Option Ingestion.Chunk :=
  chunks.reverse.find? (fun c => c.chunk_id = cid)

/-- backend.schemas.SectionSummaryOutput. -/
structure SectionSummaryOutput where
  section_name : String
  present : Bool
  bullets : List BulletWithCitations
  not_found_message : Option String
deriving DecidableEq, Repr

/-- backend.schemas.SectionSummaryWithConfidence. -/
structure SectionSummaryWithConfidence where
  section_name : String
  present : Bool
  bullets : List BulletWithCitations
  not_found_message : Option String
  confidence : String
  validation_issues : List String
deriving DecidableEq, Repr

/-- A persisted policy summary, reduced to the sections list (metadata and
disclaimer are not read by the scoring code). -/
structure PolicySummary where
  sections : List SectionSummaryWithConfidence
deriving DecidableEq, Repr

/-- Python (n or 1) for an int n. -/
def pyOrOne (n : Nat) : Nat := if n = 0 then 1 else n

/-- Python round() on a float value: round-half-to-even, modelled exactly
on the rational value. -/
def pyRoundHalfEven (x : Rat) : Int :=
  let f := ⌊x⌋
  let r := x - f
  if r < 1 / 2 then f
  else if 1 / 2 < r then f + 1
  else if f % 2 = 0 then f else f + 1

/-- Python round(x, 4). -/
def pyRound4 (x : Rat) : Rat :=
  (pyRoundHalfEven (x * 10000) : Rat) / 10000

theorem pyRoundHalfEven_intCast (n : Int) : pyRoundHalfEven (n : Rat) = n := by
  rw [pyRoundHalfEven]
  norm_num

theorem pyRound4_zero : pyRound4 0 = 0 := by
  have h := pyRoundHalfEven_intCast 0
  rw [pyRound4]
  norm_num at h ⊢
  try rw [h]
  try norm_num

theorem pyRound4_one : pyRound4 1 = 1 := by
  have h := pyRoundHalfEven_intCast 10000
  rw [pyRound4]
  norm_num at h ⊢
  try rw [h]
  try norm_num

namespace Eval

/-- confidence_for_qa of src/evaluation.py: the decision table, with the
issue tests written exactly as in the source — list membership of the
exact strings "answerable_but_no_citations" and "invalid_page_citation",
not substring containment. -/
def confidence_for_qa (answer_type : String) (citation_count : Int)
    (validation_issues : List String) (retrieval_chunk_count : Int)
    (retrieval_strong : Bool) : String :=
  if answer_type = "not_found" ∨ answer_type = "ambiguous" ∨
      answer_type = "conflict" ∨ answer_type ≠ "answerable" then "low"
  else if validation_issues.contains "answerable_but_no_citations" ∨
      validation_issues.contains "invalid_page_citation" ∨
      citation_count = 0 ∨ retrieval_chunk_count = 0 then "low"
  else if validation_issues ≠ [] then "medium"
  else if 2 ≤ citation_count ∧ (retrieval_strong ∨ 3 ≤ retrieval_chunk_count) then
    "high"
  else if 1 ≤ citation_count then "medium"
  else "low"

/-- confidence_for_section of src/evaluation.py. -/
def confidence_for_section (section_out : SectionSummaryOutput)
    (validation_issues : List String) (retrieval_chunk_count : Int) : String :=
  if section_out.present = false ∨ section_out.bullets = [] ∨
      retrieval_chunk_count = 0 then "low"
  else
    let bullets_with_citations :=
      (section_out.bullets.filter (fun b => b.citations ≠ [])).length
    let total_bullets := section_out.bullets.length
    let complete_citations := 0 < total_bullets ∧ total_bullets ≤ bullets_with_citations
    if validation_issues ≠ [] then
      if (validation_issues.filter (fun i =>
          strContains i "invalid_page" || strContains i "invalid_chunk" ||
            strContains i "missing_citations")) ≠ [] then "low"
      else "medium"
    else if complete_citations ∧ 3 ≤ retrieval_chunk_count then "high"
    else if total_bullets ≤ bullets_with_citations then "medium"
    else "low"

/-- The inner citation loop of compute_faithfulness in src/evaluation.py:
every citation must reference a stored chunk that supports the bullet;
the loop breaks at the first failure, recording its reason. -/
def bullet_check (chunks : List Ingestion.Chunk) (btext : String) :
    List Citation → Bool × String
  | [] => (true, "supported")
  | cit :: rest =>
    match chunks_by_id chunks cit.chunk_id with
    | none => (false, "chunk_missing:" ++ cit.chunk_id)
    | some ch =>
      if chunk_supports_bullet btext ch then bullet_check chunks btext rest
      else (false, "low_overlap")

/-- b.text[:80]. -/
def pyTake80 (s : String) : String := String.mk (s.data.take 80)

/-- One diagnostic record of the per-unit trail (dict key "section" is
field sec_name; section is a Lean keyword). -/
structure UnitDetail where
  sec_name : String
  text_preview : String
  supported : Bool
  reason : String
deriving DecidableEq, Repr

/-- The report dict of compute_faithfulness in src/evaluation.py. -/
structure EFaithReport where
  doc_id : String
  error : Option String
  faithfulness_score : Rat
  hallucination_rate : Rat
  contradiction_rate : Rat
  total_units : Nat
  supported_units : Nat
  unit_details : List UnitDetail
deriving Repr

/-- compute_faithfulness of src/evaluation.py, as a function of the loaded
summary and chunk list (storage.load_* is external blocking I/O; none
models the FileNotFoundError branches).  Note the line
total_units = total_units or 1 runs before the report is built, so the
reported total_units is 1 when there are no bullets. -/
def compute_faithfulness (doc_id : String) (summary : Option PolicySummary)
    (chunks_list : Option (List Ingestion.Chunk)) : EFaithReport :=
  match summary with
  | none => ⟨doc_id, some "policy_summary_not_found", 0, 0, 0, 0, 0, []⟩
  | some summary =>
    match chunks_list with
    | none => ⟨doc_id, some "chunks_not_found", 0, 0, 0, 0, 0, []⟩
    | some chunks_list =>
      let units := (summary.sections.filter
          (fun sec => sec.present ∧ sec.bullets ≠ [])).flatMap
        (fun sec => sec.bullets.map (fun b => (sec.section_name, b)))
      let details := units.map (fun u =>
        if u.2.citations = [] then
          (⟨u.1, pyTake80 u.2.text, false, "no_citations"⟩ : UnitDetail)
        else
          let r := bullet_check chunks_list u.2.text u.2.citations
          ⟨u.1, pyTake80 u.2.text, r.1, r.2⟩)
      let total_units := units.length
      let supported_units := (details.filter (fun d => d.supported)).length
      let unsupported := total_units - supported_units
      let total_floored := pyOrOne total_units
      ⟨doc_id, none,
        pyRound4 ((supported_units : Rat) / (total_floored : Rat)),
        pyRound4 ((unsupported : Rat) / (total_floored : Rat)),
        0, total_floored, supported_units, details⟩

end Eval

namespace BEval

/-- confidence_for_qa of src/backend/evaluation.py: no citation_count = 0
rule and no "no_citations" rule; the issue test is substring containment
of "invalid". -/
def confidence_for_qa (answer_type : String) (citation_count : Int)
    (validation_issues : List String) (retrieval_chunk_count : Int) : String :=
  if answer_type = "not_found" ∨ retrieval_chunk_count = 0 then "low"
  else if validation_issues.any (fun i => strContains i "invalid") then "low"
  else if 2 ≤ citation_count ∧ 3 ≤ retrieval_chunk_count then "high"
  else "medium"

/-- confidence_for_section of src/backend/evaluation.py: takes only the
section object (no retrieval_chunk_count parameter exists in this
iteration); issues come from the object's validation_issues field. -/
def confidence_for_section (section_out : SectionSummaryWithConfidence) : String :=
  let issues := section_out.validation_issues
  if section_out.present = false ∨ section_out.bullets = [] then "low"
  else
    let total_bullets := section_out.bullets.length
    let bullets_with_citations :=
      (section_out.bullets.filter (fun b => b.citations ≠ [])).length
    if issues ≠ [] then
      if (issues.filter (fun i =>
          strContains (pyLower i) "invalid" ||
            strContains (pyLower i) "missing")) ≠ [] then "low"
      else "medium"
    else if total_bullets ≤ bullets_with_citations then "high"
    else "medium"

/-- The inner citation loop of compute_faithfulness in
src/backend/evaluation.py: is_supported becomes True (and the loop
breaks) as soon as one citation references a stored chunk supporting the
bullet. -/
def bsupported (chunks : List Ingestion.Chunk) (b : BulletWithCitations) : Bool :=
  b.citations.any (fun cit =>
    match chunks_by_id chunks cit.chunk_id with
    | some ch => chunk_supports_bullet b.text ch
    | none => false)

/-- The report dict of compute_faithfulness in src/backend/evaluation.py
(it has no supported_units or unit_details keys; the error dict carries no
doc_id, modelled here by keeping the field). -/
structure BFaithReport where
  doc_id : String
  error : Option String
  faithfulness_score : Rat
  total_units : Nat
deriving Repr

/-- compute_faithfulness of src/backend/evaluation.py, as a function of
the loaded summary and chunk list; the reported total_units is the raw
count and the score denominator is (total_units or 1). -/
def compute_faithfulness (doc_id : String) (summary : Option PolicySummary)
    (chunks_list : Option (List Ingestion.Chunk)) : BFaithReport :=
  match summary, chunks_list with
  | some summary, some chunks_list =>
    let units := (summary.sections.filter
        (fun sec => sec.present ∧ sec.bullets ≠ [])).flatMap (fun sec => sec.bullets)
    let total_units := units.length
    let supported_units := (units.filter (fun b => bsupported chunks_list b)).length
    ⟨doc_id, none,
      pyRound4 ((supported_units : Rat) / (pyOrOne total_units : Rat)),
      total_units⟩
  | _, _ => ⟨doc_id, some "data_missing", 0, 0⟩

end BEval

/-- Claim C2 (code bug): the spec's decision table demands "low" for an
answerable answer whenever an issue contains "invalid" as a substring or
citation_count is zero.  In src/evaluation.py the issue test is exact list
membership, so the issue "invalid_page_citation:99" actually produced by
validate_qa_response never matches and the function returns "medium"; in
src/backend/evaluation.py there is no zero-citation rule at all, giving
"medium" for an answerable answer with zero citations. -/
theorem c2_qa_confidence_divergence :
    Eval.confidence_for_qa "answerable" 1 ["invalid_page_citation:99"] 3 false
      = "medium" ∧
    BEval.confidence_for_qa "answerable" 0 [] 1 = "medium" := by
  constructor <;> rfl

/-- Claim C3: confidence_for_section returns "low" whenever
retrieval_chunk_count = 0, independent of all other inputs, and likewise
when the section is not present or has no bullets (the backend iteration
has no retrieval_chunk_count parameter; its not-present and no-bullets
rules are the last two conjuncts). -/
theorem c3_section_confidence_low (s : SectionSummaryOutput)
    (issues : List String) (rc : Int) (name : String)
    (bullets : List BulletWithCitations) (nf : Option String)
    (conf : String) (bissues : List String) :
    Eval.confidence_for_section s issues 0 = "low" ∧
    Eval.confidence_for_section ⟨name, false, bullets, nf⟩ issues rc = "low" ∧
    Eval.confidence_for_section ⟨name, s.present, [], nf⟩ issues rc = "low" ∧
    BEval.confidence_for_section ⟨name, false, bullets, nf, conf, bissues⟩ = "low" ∧
    BEval.confidence_for_section ⟨name, s.present, [], nf, conf, bissues⟩ = "low" := by
  refine ⟨?_, ?_, ?_, ?_, ?_⟩ <;>
    simp [Eval.confidence_for_section, BEval.confidence_for_section]

/-- A bullet whose text has no alphanumeric tokens is vacuously supported
by any chunk. -/
theorem chunk_supports_bullet_of_tokenless (t : String) (ch : Ingestion.Chunk)
    (h : normalize_tokens t = []) : chunk_supports_bullet t ch = true := by
  rw [chunk_supports_bullet]
  simp [h]

/-- Claim C8 (amended): in the backend compute_faithfulness, one citation
referencing a stored chunk that passes a support test makes the bullet
supported, whatever the bullet's other citations reference: a single-bullet
summary scores 1.0. -/
theorem c8_backend_any_citation_suffices
    (doc_id name : String) (chunks : List Ingestion.Chunk)
    (b : BulletWithCitations) (nf : Option String) (conf : String)
    (iss : List String)
    (h : ∃ cit ∈ b.citations, ∃ ch, chunks_by_id chunks cit.chunk_id = some ch ∧
        chunk_supports_bullet b.text ch = true) :
    (BEval.compute_faithfulness doc_id
        (some ⟨[⟨name, true, [b], nf, conf, iss⟩]⟩) (some chunks)).faithfulness_score
      = 1 ∧
    (BEval.compute_faithfulness doc_id
        (some ⟨[⟨name, true, [b], nf, conf, iss⟩]⟩) (some chunks)).total_units = 1 := by
  have hsup : BEval.bsupported chunks b = true := by
    rw [BEval.bsupported, List.any_eq_true]
    obtain ⟨cit, hcit, ch, hch, hpass⟩ := h
    refine ⟨cit, hcit, ?_⟩
    rw [hch]
    exact hpass
  constructor
  · simp [BEval.compute_faithfulness, hsup, pyOrOne, pyRound4_one]
  · simp [BEval.compute_faithfulness, hsup]

/-- Witness for C8 at a concrete input: the first citation references a
missing chunk, the second a supporting chunk; the backend score is 1.0. -/
theorem c8_backend_any_citation_suffices_witness :
    (∃ cit ∈ [(⟨1, "c_9_9"⟩ : Citation), ⟨1, "c_1_0"⟩], ∃ ch,
        chunks_by_id [(⟨"c_1_0", 1, "d", "deductible 500 annual"⟩ : Ingestion.Chunk)]
          cit.chunk_id = some ch ∧
        chunk_supports_bullet "deductible 500" ch = true) ∧
    (BEval.compute_faithfulness "d"
        (some ⟨[⟨"Cost Summary", true,
          [⟨"deductible 500", [⟨1, "c_9_9"⟩, ⟨1, "c_1_0"⟩]⟩], none, "low", []⟩]⟩)
        (some [⟨"c_1_0", 1, "d", "deductible 500 annual"⟩])).faithfulness_score = 1 := by
  have hyp : ∃ cit ∈ [(⟨1, "c_9_9"⟩ : Citation), ⟨1, "c_1_0"⟩], ∃ ch,
      chunks_by_id [(⟨"c_1_0", 1, "d", "deductible 500 annual"⟩ : Ingestion.Chunk)]
        cit.chunk_id = some ch ∧
      chunk_supports_bullet "deductible 500" ch = true :=
    ⟨⟨1, "c_1_0"⟩, by decide, ⟨"c_1_0", 1, "d", "deductible 500 annual"⟩,
      by decide, by decide⟩
  exact ⟨hyp,
    (c8_backend_any_citation_suffices "d" "Cost Summary"
      [⟨"c_1_0", 1, "d", "deductible 500 annual"⟩]
      ⟨"deductible 500", [⟨1, "c_9_9"⟩, ⟨1, "c_1_0"⟩]⟩ none "low" [] hyp).1⟩

/-- Counterexample to C8 as frozen: in the src/evaluation.py iteration of
compute_faithfulness the same bullet is counted unsupported although its
first citation references a stored chunk passing the word-overlap test,
because the second citation references a missing chunk and this iteration
requires every citation to pass. -/
theorem c8_counterexample_all_citations_required :
    (Eval.compute_faithfulness "d"
        (some ⟨[⟨"Cost Summary", true,
          [⟨"deductible 500", [⟨1, "c_1_0"⟩, ⟨1, "c_9_9"⟩]⟩], none, "low", []⟩]⟩)
        (some [⟨"c_1_0", 1, "d", "deductible 500 annual"⟩])).supported_units = 0 ∧
    chunks_by_id [(⟨"c_1_0", 1, "d", "deductible 500 annual"⟩ : Ingestion.Chunk)]
      "c_1_0" = some ⟨"c_1_0", 1, "d", "deductible 500 annual"⟩ ∧
    chunk_supports_bullet "deductible 500"
      ⟨"c_1_0", 1, "d", "deductible 500 annual"⟩ = true := by
  refine ⟨by decide, by decide, by decide⟩

/-- Claim C9 (amended): on a summary whose sections contain zero bullets
in total, the backend compute_faithfulness returns score 0.0 with
total_units = 0 and no error, while the src/evaluation.py iteration also
returns score 0.0 but reports total_units = 1 (floored before the report
is built). -/
theorem c9_zero_bullets_faithfulness (doc_id : String) (summary : PolicySummary)
    (chunks : List Ingestion.Chunk)
    (h : ∀ sec ∈ summary.sections, sec.bullets = []) :
    (BEval.compute_faithfulness doc_id (some summary) (some chunks)).total_units
        = 0 ∧
    (BEval.compute_faithfulness doc_id (some summary)
        (some chunks)).faithfulness_score = 0 ∧
    (BEval.compute_faithfulness doc_id (some summary) (some chunks)).error = none ∧
    (Eval.compute_faithfulness doc_id (some summary) (some chunks)).total_units
        = 1 ∧
    (Eval.compute_faithfulness doc_id (some summary)
        (some chunks)).faithfulness_score = 0 := by
  have hfilter : summary.sections.filter
      (fun sec => sec.present ∧ sec.bullets ≠ []) = [] := by
    rw [List.filter_eq_nil_iff]
    intro sec hsec
    simp [h sec hsec]
  refine ⟨?_, ?_, ?_, ?_, ?_⟩
  · rw [BEval.compute_faithfulness]; dsimp only; rw [hfilter]; simp
  · rw [BEval.compute_faithfulness]; dsimp only; rw [hfilter]
    simp [pyOrOne, pyRound4_zero]
  · rfl
  · rw [Eval.compute_faithfulness]; dsimp only; rw [hfilter]; simp [pyOrOne]
  · rw [Eval.compute_faithfulness]; dsimp only; rw [hfilter]
    simp [pyOrOne, pyRound4_zero]

/-- Witness for C9 at a concrete input. -/
theorem c9_zero_bullets_faithfulness_witness :
    (∀ sec ∈ [(⟨"Plan Snapshot", false, [], some "Not found.", "low", []⟩ :
        SectionSummaryWithConfidence)], sec.bullets = []) ∧
    (BEval.compute_faithfulness "doc"
        (some ⟨[⟨"Plan Snapshot", false, [], some "Not found.", "low", []⟩]⟩)
        (some [])).total_units = 0 := by
  refine ⟨by decide, ?_⟩
  exact (c9_zero_bullets_faithfulness "doc"
    ⟨[⟨"Plan Snapshot", false, [], some "Not found.", "low", []⟩]⟩ [] (by decide)).1

/-- Counterexample to C9 as frozen: the src/evaluation.py iteration
reports total_units = 1, not 0, on a summary with zero bullets. -/
theorem c9_counterexample_total_units_floored :
    (Eval.compute_faithfulness "d"
        (some ⟨[⟨"Cost Summary", true, [], none, "low", []⟩]⟩)
        (some [])).total_units = 1 ∧
    ¬ (Eval.compute_faithfulness "d"
        (some ⟨[⟨"Cost Summary", true, [], none, "low", []⟩]⟩)
        (some [])).total_units = 0 := by
  refine ⟨by decide, by decide⟩

/-- Every citation of a tokenless bullet that references a stored chunk
passes the src/evaluation.py citation loop. -/
theorem bullet_check_all_exist (chunks : List Ingestion.Chunk) (btext : String)
    (hb : normalize_tokens btext = []) :
    ∀ cits : List Citation,
      (∀ cit ∈ cits, (chunks_by_id chunks cit.chunk_id).isSome) →
      Eval.bullet_check chunks btext cits = (true, "supported") := by
  intro cits
  induction cits with
  | nil => intro _; rfl
  | cons cit rest ih =>
    intro hall
    obtain ⟨ch, hch⟩ :=
      Option.isSome_iff_exists.mp (hall cit (List.mem_cons_self _ _))
    rw [Eval.bullet_check, hch]
    simp only [chunk_supports_bullet_of_tokenless btext ch hb, if_true]
    exact ih (fun c hc => hall c (List.mem_cons_of_mem _ hc))

/-- Claim C10 (amended): _chunk_supports_bullet returns True for every
chunk whenever the bullet text has no alphanumeric tokens; consequently a
tokenless bullet with at least one citation, all of whose citations
reference stored chunks, is counted as supported by both iterations of
compute_faithfulness. -/
theorem c10_tokenless_bullet_always_supported
    (t : String) (ch : Ingestion.Chunk) (doc_id name : String)
    (chunks : List Ingestion.Chunk) (b : BulletWithCitations)
    (nf : Option String) (conf : String) (iss : List String)
    (htok0 : normalize_tokens t = [])
    (htok : normalize_tokens b.text = [])
    (hcb : b.citations ≠ [])
    (hall : ∀ cit ∈ b.citations, (chunks_by_id chunks cit.chunk_id).isSome) :
    chunk_supports_bullet t ch = true ∧
    (BEval.compute_faithfulness doc_id
        (some ⟨[⟨name, true, [b], nf, conf, iss⟩]⟩) (some chunks)).faithfulness_score
      = 1 ∧
    (Eval.compute_faithfulness doc_id
        (some ⟨[⟨name, true, [b], nf, conf, iss⟩]⟩) (some chunks)).supported_units
      = 1 := by
  refine ⟨chunk_supports_bullet_of_tokenless t ch htok0, ?_, ?_⟩
  · have hsup : BEval.bsupported chunks b = true := by
      rw [BEval.bsupported, List.any_eq_true]
      obtain ⟨cit, rest, hcons⟩ := List.exists_cons_of_ne_nil hcb
      obtain ⟨c, hc⟩ := Option.isSome_iff_exists.mp
        (hall cit (by rw [hcons]; exact List.mem_cons_self _ _))
      refine ⟨cit, by rw [hcons]; exact List.mem_cons_self _ _, ?_⟩
      rw [hc]
      exact chunk_supports_bullet_of_tokenless b.text c htok
    simp [BEval.compute_faithfulness, hsup, pyOrOne, pyRound4_one]
  · have hcheck := bullet_check_all_exist chunks b.text htok b.citations hall
    simp [Eval.compute_faithfulness, hcb, hcheck]

/-- Witness for C10 at a concrete input: a punctuation-only bullet with
one citation to an existing chunk. -/
theorem c10_tokenless_bullet_always_supported_witness :
    normalize_tokens "?!" = [] ∧
    (Eval.compute_faithfulness "d"
        (some ⟨[⟨"Cost Summary", true, [⟨"?!", [⟨1, "c_1_0"⟩]⟩], none, "low", []⟩]⟩)
        (some [⟨"c_1_0", 1, "d", "x"⟩])).supported_units = 1 := by
  refine ⟨by decide, ?_⟩
  exact (c10_tokenless_bullet_always_supported "" ⟨"c_1_0", 1, "d", "x"⟩ "d"
    "Cost Summary" [⟨"c_1_0", 1, "d", "x"⟩] ⟨"?!", [⟨1, "c_1_0"⟩]⟩ none "low" []
    (by decide) (by decide) (by decide) (by decide)).2.2

/-! ## LLM JSON-output parsing (src/backend/qa.py) -/

namespace QA

/-- JSON values as recognized by Python json.loads; numeric literals keep
their source text and strings keep their escaped source content (the
parsed value itself is not consumed by the claims, only parse success or
failure). -/
inductive JVal where
  | jnull : JVal
  | jbool : Bool → JVal
  | jnum : String → JVal
  | jstr : String → JVal
  | jarr : List JVal → JVal
  | jobj : List (String × JVal) → JVal
deriving Repr

/-- JSON whitespace as skipped by json.loads. -/
def isJsonWs (c : Char) : Bool :=
  c = ' ' ∨ c = '\t' ∨ c = '\n' ∨ c = '\r'

def skipJsonWs (cs : List Char) : List Char := cs.dropWhile isJsonWs

def isHexDigit (c : Char) : Bool :=
  c.isDigit ∨ ('a' ≤ c ∧ c ≤ 'f') ∨ ('A' ≤ c ∧ c ≤ 'F')

/-- A JSON string body, positioned after the opening quote: the standard
escapes, \uXXXX, and the strict rejection of unescaped control characters;
returns the raw content and the remainder after the closing quote.  The
fuel bounds the recursion depth and is ample at input length + 1. -/
def scanString : Nat → List Char → Option (List Char × List Char)
  | 0, _ => none
  | _ + 1, [] => none
  | fuel + 1, c :: rest =>
    if c = '\"' then some ([], rest)
    else if c = '\\' then
      match rest with
      | [] => none
      | e :: rest2 =>
        if e = 'u' then
          match rest2 with
          | h1 :: h2 :: h3 :: h4 :: rest3 =>
            if isHexDigit h1 && isHexDigit h2 && isHexDigit h3 && isHexDigit h4 then
              (scanString fuel rest3).map
                (fun p => (c :: e :: h1 :: h2 :: h3 :: h4 :: p.1, p.2))
            else none
          | _ => none
        else if e = '\"' ∨ e = '\\' ∨ e = '/' ∨ e = 'b' ∨ e = 'f' ∨ e = 'n' ∨
            e = 'r' ∨ e = 't' then
          (scanString fuel rest2).map (fun p => (c :: e :: p.1, p.2))
        else none
    else if c.toNat < 32 then none
    else (scanString fuel rest).map (fun p => (c :: p.1, p.2))

/-- The integer part of json.decoder.NUMBER_RE: 0 or [1-9][0-9]*. -/
def scanIntPart : List Char → Option (List Char × List Char)
  | [] => none
  | c :: rest =>
    if c = '0' then some ([c], rest)
    else if c.isDigit then
      some (c :: rest.takeWhile Char.isDigit, rest.dropWhile Char.isDigit)
    else none

/-- json.decoder.NUMBER_RE, (-?(?:0|[1-9]\d*))(\.\d+)?([eE][-+]?\d+)?:
an optional group that cannot match consumes nothing. -/
def scanNumber (cs : List Char) : Option (List Char × List Char) :=
  let sgn : List Char × List Char :=
    match cs with
    | '-' :: r => (['-'], r)
    | _ => ([], cs)
  match scanIntPart sgn.2 with
  | none => none
  | some (ip, cs2) =>
    let frac : List Char × List Char :=
      match cs2 with
      | '.' :: d :: r =>
        if d.isDigit then
          ('.' :: d :: r.takeWhile Char.isDigit, r.dropWhile Char.isDigit)
        else ([], cs2)
      | _ => ([], cs2)
    let expo : List Char × List Char :=
      match frac.2 with
      | e :: r =>
        if e = 'e' ∨ e = 'E' then
          let sr : List Char × List Char :=
            match r with
            | s :: r2 => if s = '+' ∨ s = '-' then ([s], r2) else ([], r)
            | [] => ([], r)
          match sr.2 with
          | d :: _ =>
            if d.isDigit then
              (e :: (sr.1 ++ sr.2.takeWhile Char.isDigit), sr.2.dropWhile Char.isDigit)
            else ([], frac.2)
          | [] => ([], frac.2)
        else ([], frac.2)
      | [] => ([], frac.2)
    some (sgn.1 ++ ip ++ frac.1 ++ expo.1, expo.2)

mutual

/-- One JSON value at the current position (the json scanner); the
constants NaN, Infinity and -Infinity are accepted as json.loads does by
default.  The fuel bounds the nesting depth and is ample at
input length + 1, since every recursive call follows the consumption of at
least one character. -/
def parseVal : Nat → List Char → Option (JVal × List Char)
  | 0, _ => none
  | fuel + 1, cs =>
    match cs with
    | [] => none
    | c :: rest =>
      if c = '\"' then
        match scanString (rest.length + 1) rest with
        | some p => some (JVal.jstr (String.mk p.1), p.2)
        | none => none
      else if c = '\x7b' then
        match skipJsonWs rest with
        | '\x7d' :: r => some (JVal.jobj [], r)
        | cs2 => parseObjBody fuel cs2 []
      else if c = '[' then
        match skipJsonWs rest with
        | ']' :: r => some (JVal.jarr [], r)
        | cs2 => parseArrBody fuel cs2 []
      else if cs.take 4 = ['n', 'u', 'l', 'l'] then some (JVal.jnull, cs.drop 4)
      else if cs.take 4 = ['t', 'r', 'u', 'e'] then some (JVal.jbool true, cs.drop 4)
      else if cs.take 5 = ['f', 'a', 'l', 's', 'e'] then
        some (JVal.jbool false, cs.drop 5)
      else
        match scanNumber cs with
        | some p => some (JVal.jnum (String.mk p.1), p.2)
        | none =>
          if cs.take 3 = ['N', 'a', 'N'] then some (JVal.jnum "NaN", cs.drop 3)
          else if cs.take 8 = ['I', 'n', 'f', 'i', 'n', 'i', 't', 'y'] then
            some (JVal.jnum "Infinity", cs.drop 8)
          else if cs.take 9 = ['-', 'I', 'n', 'f', 'i', 'n', 'i', 't', 'y'] then
            some (JVal.jnum "-Infinity", cs.drop 9)
          else none

/-- Object members, positioned at a key's opening quote. -/
def parseObjBody : Nat → List Char → List (String × JVal) →
    Option (JVal × List Char)
  | 0, _, _ => none
  | fuel + 1, cs, acc =>
    match cs with
    | '\"' :: rest =>
      match scanString (rest.length + 1) rest with
      | none => none
      | some kp =>
        match skipJsonWs kp.2 with
        | ':' :: r2 =>
          match parseVal fuel (skipJsonWs r2) with
          | none => none
          | some vp =>
            match skipJsonWs vp.2 with
            | ',' :: r4 =>
              parseObjBody fuel (skipJsonWs r4) (acc ++ [(String.mk kp.1, vp.1)])
            | '\x7d' :: r4 => some (JVal.jobj (acc ++ [(String.mk kp.1, vp.1)]), r4)
            | _ => none
        | _ => none
    | _ => none

/-- Array elements, positioned at an element's first character. -/
def parseArrBody : Nat → List Char → List JVal → Option (JVal × List Char)
  | 0, _, _ => none
  | fuel + 1, cs, acc =>
    match parseVal fuel cs with
    | none => none
    | some vp =>
      match skipJsonWs vp.2 with
      | ',' :: r2 => parseArrBody fuel (skipJsonWs r2) (acc ++ [vp.1])
      | ']' :: r2 => some (JVal.jarr (acc ++ [vp.1]), r2)
      | _ => none

end

/-- json.loads: parse one value after leading whitespace and require only
whitespace to remain; none models a raised JSONDecodeError. -/
def json_loads (s : String) : Option JVal :=
  let cs := skipJsonWs s.data
  match parseVal (cs.length + 1) cs with
  | some p => if skipJsonWs p.2 = [] then some p.1 else none
  | none => none

/-- Python s[n:]. -/
def pyDrop (s : String) (n : Nat) : String := String.mk (s.data.drop n)

/-- Python s[:-n] for n >= 1. -/
def pyDropRight (s : String) (n : Nat) : String :=
  String.mk (s.data.take (s.data.length - n))

def pyStartsWith (s pre : String) : Bool := pre.data.isPrefixOf s.data

def pyEndsWith (s suf : String) : Bool := suf.data.isSuffixOf s.data

/-- re.search applied to the pattern capturing a brace-delimited span with
DOTALL (as in the fallback of qa._parse_llm_json): the leftmost match
starts at the first opening brace that lies before the last closing
brace, and the greedy dot-star runs to that last closing brace. -/
def braceSpan (raw : String) : Option String :=
  let ds := raw.data
  match List.findIdx? (fun c => c = '\x7b') ds,
      List.findIdx? (fun c => c = '\x7d') ds.reverse with
  | some i, some jr =>
    let j := ds.length - 1 - jr
    if i < j then some (String.mk ((ds.drop i).take (j - i + 1))) else none
  | _, _ => none

/-- _parse_llm_json of src/backend/qa.py: strip, peel markdown fences,
try json.loads; on failure, search for a brace-delimited substring and
call json.loads on it AGAIN, this time outside any try/except — a failure
there propagates as an uncaught json.JSONDecodeError, modelled by
Except.error.  No match at all yields the empty dict. -/
def qa_parse_llm_json (raw0 : String) : Except String JVal :=
  let raw1 := pyStrip raw0
  let raw2 := if pyStartsWith raw1 "```json" then pyDrop raw1 7 else raw1
  let raw3 := if pyStartsWith raw2 "```" then pyDrop raw2 3 else raw2
  let raw4 := if pyEndsWith raw3 "```" then pyDropRight raw3 3 else raw3
  match json_loads (pyStrip raw4) with
  | some v => Except.ok v
  | none =>
    match braceSpan raw4 with
    | some sub =>
      match json_loads sub with
      | some v => Except.ok v
      | none => Except.error "json.decoder.JSONDecodeError"
    | none => Except.ok (JVal.jobj [])

end QA

/-- Claim C4 (code bug): the spec requires the LLM-output parsing never to
raise, substituting a degraded result — but when the generation output
contains a brace-delimited span that is still not valid JSON, the fallback
json.loads in qa._parse_llm_json runs outside the try/except and raises
json.JSONDecodeError, which propagates out of ask (the summarization.py
variant of _parse_llm_json keeps its fallback inside the except and does
return None).  Failing input: the raw string consisting of an opening
brace, the text "not json", and a closing brace. -/
theorem c4_qa_parse_raises_on_malformed_braces :
    QA.qa_parse_llm_json "\x7bnot json\x7d" =
      Except.error "json.decoder.JSONDecodeError" := by
  rfl

/-- Counterexample to C10 as frozen: in the src/evaluation.py iteration a
tokenless bullet carrying a citation to an existing chunk is nevertheless
counted unsupported when a further citation references a missing chunk. -/
theorem c10_counterexample_dangling_citation :
    normalize_tokens "?!" = [] ∧
    chunks_by_id [(⟨"c_1_0", 1, "d", "x"⟩ : Ingestion.Chunk)] "c_1_0" =
      some ⟨"c_1_0", 1, "d", "x"⟩ ∧
    (Eval.compute_faithfulness "d"
        (some ⟨[⟨"Cost Summary", true,
          [⟨"?!", [⟨1, "c_1_0"⟩, ⟨1, "c_9_9"⟩]⟩], none, "low", []⟩]⟩)
        (some [⟨"c_1_0", 1, "d", "x"⟩])).supported_units = 0 := by
  refine ⟨by decide, by decide, by decide⟩

end PolicyExplainer
